import Mathlib

/-!
Verification of the oneShare metadata subsystem.

This file shallowly embeds the two server modules the claims are about:

* `server/sqlite_metadata_manager.py` — `FileMetadata`, `save_metadata`,
  `load_metadata`, `create_metadata`, `get_directory_permission`;
* `server/metadata_cleanup_manager.py` — `check_consistency`,
  `cleanup_orphan_metadata`, `_delete_orphan_metadata`, `_should_exclude_file`,
  `_log_cleanup_result`.

Modelling conventions:

* SQLite tables are lists of row structures, in insertion order; `SELECT`
  with no `ORDER BY` enumerates that order, `WHERE x = ?` is a filter/find,
  and `AUTOINCREMENT` is the `next_id` counter (SQLite never reuses an
  `AUTOINCREMENT` id, so every live or stale id is `< next_id`).
* Timestamps: the code stores `datetime.now().isoformat()` strings; ISO-8601
  strings produced by one monotone clock compare exactly like the instants
  they denote, so timestamps are embedded as `Nat` and the wall clock is an
  explicit `now : Nat` argument.
* POSIX paths (`pathlib.PurePosixPath` / `os.path.dirname`) are embedded as
  a root flag plus the list of path components; `""` and `"."` are both the
  empty relative path, which is exactly how the Python code treats them.
* Filesystem state is the list of existing relative file paths, in the
  enumeration order `rglob` would produce.
-/

/-- A POSIX path as `pathlib` sees it: an optional leading `/` anchor and the
normalized component list. The empty relative path prints as `"."`/`""`. -/
structure PurePath where
  absolute : Bool
  comps : List String
deriving DecidableEq, Repr

/-- Python `str(Path(p).parent)`: drop the last component; the empty relative path
`"."` and the filesystem root `"/"` are their own parent. -/
def PurePath.parent (p : PurePath) : PurePath :=
  if p.comps = [] then p else ⟨p.absolute, p.comps.dropLast⟩

/-- Python `os.path.basename`: the last component, or `""` when there is none. -/
def PurePath.basename (p : PurePath) : String :=
  p.comps.getLast?.getD ""

/-- The guard `if not directory_path or directory_path == "."` at the top of
`get_directory_permission`: true exactly for the empty relative path. -/
def PurePath.isEmptyRel (p : PurePath) : Bool :=
  !p.absolute && p.comps.isEmpty

/-- The `FileMetadata` dataclass of `sqlite_metadata_manager.py`. -/
structure FileMetadata where
  filename : String
  size : Nat
  upload_time : Nat
  last_modified : Nat
  is_public : Bool
  content_type : String
  created_by : Option String
  tags : List String
  description : String
  notes : String
  original_url : Option String
  locked : Bool
deriving DecidableEq, Repr

/-- One row of the `file_metadata` table (schema in `_get_embedded_schema`). -/
structure FileRow where
  id : Nat
  filename : String
  file_path : PurePath
  size : Nat
  upload_time : Nat
  last_modified : Nat
  is_public : Bool
  content_type : String
  created_by : Option String
  description : String
  notes : String
  original_url : Option String
  locked : Bool
  created_at : Nat
  updated_at : Nat
deriving DecidableEq, Repr

/-- One row of the `file_tags` table. -/
structure TagRow where
  file_id : Nat
  tag : String
  created_at : Nat
deriving DecidableEq, Repr

/-- One row of the `directory_metadata` table; `is_public` is nullable. -/
structure DirRecord where
  directory_path : PurePath
  is_public : Option Bool
  locked : Bool
  description : String
  created_by : Option String
  created_at : Nat
  updated_at : Nat
deriving DecidableEq, Repr

/-- The SQLite database held by `SQLiteMetadataManager`: the three tables plus
the `AUTOINCREMENT` counter of `file_metadata.id`. -/
structure MetaDB where
  files : List FileRow
  tags : List TagRow
  dirs : List DirRecord
  next_id : Nat
deriving DecidableEq, Repr

/-- Invariant guaranteed by SQLite `AUTOINCREMENT`: every id ever handed out
(so every `file_metadata.id` and every `file_tags.file_id`, including stale
tag rows left behind because foreign keys are off) is below the counter. -/
def MetaDB.WF (db : MetaDB) : Prop :=
  (∀ f ∈ db.files, f.id < db.next_id) ∧ (∀ t ∈ db.tags, t.file_id < db.next_id)

instance (db : MetaDB) : Decidable db.WF := by
  unfold MetaDB.WF; infer_instance

/-- Model of `_get_file_id`: `SELECT id FROM file_metadata WHERE file_path = ?`,
first matching row. -/
def getFileId (db : MetaDB) (p : PurePath) : Option Nat :=
  (db.files.find? (fun r => decide (r.file_path = p))).map (fun r => r.id)

/-- The `INSERT INTO file_tags ...` loop of `save_metadata`: inserting a
`(file_id, tag)` pair that is already present violates the
`UNIQUE(file_id, tag)` constraint and raises `IntegrityError`. -/
def insertTags (i now : Nat) : List String → List TagRow → Except String (List TagRow)
  | [], acc => .ok acc
  | t :: ts, acc =>
      if acc.any (fun tr => decide (tr.file_id = i) && decide (tr.tag = t)) then
        .error "UNIQUE constraint failed: file_tags.file_id, file_tags.tag"
      else
        insertTags i now ts (acc ++ [⟨i, t, now⟩])

/-- The `UPDATE file_metadata SET ... WHERE id = ?` of `save_metadata`:
`file_path`, `id` and `created_at` are not in the column list. -/
def updateRow (md : FileMetadata) (now i : Nat) (r : FileRow) : FileRow :=
  if r.id = i then
    { r with
      filename := md.filename, size := md.size, upload_time := md.upload_time,
      last_modified := md.last_modified, is_public := md.is_public,
      content_type := md.content_type, created_by := md.created_by,
      description := md.description, notes := md.notes,
      original_url := md.original_url, locked := md.locked, updated_at := now }
  else r

/-- Model of `save_metadata(file_path, metadata)`: stamp `last_modified = now`, then
upsert the `file_metadata` row keyed by `file_path` and fully replace its
tags (delete-then-reinsert). A duplicate tag makes the transaction fail. -/
def save_metadata (db : MetaDB) (now : Nat) (p : PurePath) (metadata : FileMetadata) :
    Except String MetaDB :=
  let md := { metadata with last_modified := now }
  match db.files.find? (fun r => decide (r.file_path = p)) with
  | some row =>
      let i := row.id
      let files₁ := db.files.map (updateRow md now i)
      let tags₀ := db.tags.filter (fun tr => !decide (tr.file_id = i))
      match insertTags i now md.tags tags₀ with
      | .error e => .error e
      | .ok tags₁ => .ok { db with files := files₁, tags := tags₁ }
  | none =>
      let i := db.next_id
      let row : FileRow :=
        { id := i, filename := md.filename, file_path := p, size := md.size,
          upload_time := md.upload_time, last_modified := md.last_modified,
          is_public := md.is_public, content_type := md.content_type,
          created_by := md.created_by, description := md.description,
          notes := md.notes, original_url := md.original_url,
          locked := md.locked, created_at := now, updated_at := now }
      match insertTags i now md.tags db.tags with
      | .error e => .error e
      | .ok tags₁ =>
          .ok { db with files := db.files ++ [row], tags := tags₁, next_id := i + 1 }

/-- Model of `load_metadata(file_path)`: read the row keyed by `file_path` and its tags
via `SELECT tag FROM file_tags WHERE file_id = ? ORDER BY tag`. -/
def load_metadata (db : MetaDB) (p : PurePath) : Option FileMetadata :=
  match db.files.find? (fun r => decide (r.file_path = p)) with
  | none => none
  | some row =>
      let tagList :=
        List.insertionSort (· ≤ ·)
          ((db.tags.filter (fun tr => decide (tr.file_id = row.id))).map (fun tr => tr.tag))
      some
        { filename := row.filename, size := row.size,
          upload_time := row.upload_time, last_modified := row.last_modified,
          is_public := row.is_public, content_type := row.content_type,
          created_by := row.created_by, tags := tagList,
          description := row.description, notes := row.notes,
          original_url := row.original_url, locked := row.locked }

/-- The `SELECT is_public FROM directory_metadata WHERE directory_path = ?`
step: `none` when there is no row or the row's `is_public` is NULL. -/
def lookupSetting (dirs : List DirRecord) (p : PurePath) : Option Bool :=
  (dirs.find? (fun r => decide (r.directory_path = p))).bind (fun r => r.is_public)

/-- Fuel-indexed transcription of the recursion in `get_directory_permission`;
the outer `none` means the fuel ran out, i.e. the recursion went deeper than
allowed. One recursion step per parent hop, exactly as in the Python code:
stop at the empty relative path, return an explicit non-null setting, or hop
to the parent unless it is self-referential (the filesystem root). -/
def gdpFuel (dirs : List DirRecord) : Nat → PurePath → Option (Option Bool)
  | 0, _ => none
  | fuel + 1, p =>
      if p.isEmptyRel then some none
      else
        match lookupSetting dirs p with
        | some b => some (some b)
        | none =>
            let parent_dir := p.parent
            if parent_dir ≠ p then gdpFuel dirs fuel parent_dir
            else some none

/-- Model of `get_directory_permission(directory_path)`: explicit setting for the
directory itself, else recurse on the parent, stopping at the empty path and
at a self-referential parent (the filesystem root). The Python recursion
consumes one path component per hop, so running the step function with
`p.comps.length + 1` fuel computes it; theorem `gdp_step` below recovers the
original recursive equation, and the C5 theorem shows any larger fuel yields
the same value. -/
def get_directory_permission (dirs : List DirRecord) (p : PurePath) : Option Bool :=
  (gdpFuel dirs (p.comps.length + 1) p).getD none

/-- Fuel-indexed form of the inspection sequence of
`get_directory_permission`: the path itself, then each ancestor, stopping
before the empty relative path and at the self-referential root. -/
def visitChainF : Nat → PurePath → List PurePath
  | 0, _ => []
  | fuel + 1, p =>
      if p.isEmptyRel then []
      else p :: (if p.parent ≠ p then visitChainF fuel p.parent else [])

/-- The sequence of directories whose `directory_metadata` rows
`get_directory_permission` inspects, in inspection order. -/
def visitChain (p : PurePath) : List PurePath :=
  visitChainF (p.comps.length + 1) p

/-- First non-null `is_public` setting along a list of directories. -/
def chainLookup (dirs : List DirRecord) : List PurePath → Option Bool
  | [] => none
  | q :: rest =>
      match lookupSetting dirs q with
      | some b => some b
      | none => chainLookup dirs rest

/-- The record `create_metadata` builds before saving: basename as display
name, both timestamps now, `is_public` overridden by the inherited directory
permission of `dirname(file_path)` when that is non-null, and the defaults of
the keyword arguments (`content_type or "application/octet-stream"`,
`tags or []`). -/
def createRecord (db : MetaDB) (now : Nat) (file_path : PurePath) (file_size : Nat)
    (is_public : Bool) (content_type : Option String) (created_by : Option String)
    (tags : Option (List String)) (description : String) (notes : String)
    (locked : Bool) : FileMetadata :=
  let filename := file_path.basename
  let inherited := get_directory_permission db.dirs file_path.parent
  let is_pub := inherited.getD is_public
  { filename := filename, size := file_size, upload_time := now,
    last_modified := now, is_public := is_pub,
    content_type := content_type.getD "application/octet-stream",
    created_by := created_by, tags := tags.getD [],
    description := description, notes := notes, original_url := none,
    locked := locked }

/-- Model of `create_metadata(file_path, file_size, is_public, ...)`: build the record
(resolving directory-permission inheritance) and save it. -/
def create_metadata (db : MetaDB) (now : Nat) (file_path : PurePath) (file_size : Nat)
    (is_public : Bool) (content_type : Option String) (created_by : Option String)
    (tags : Option (List String)) (description : String) (notes : String)
    (locked : Bool) : Except String (MetaDB × FileMetadata) :=
  let metadata := createRecord db now file_path file_size is_public content_type
    created_by tags description notes locked
  match save_metadata db now file_path metadata with
  | .error e => .error e
  | .ok db₁ => .ok (db₁, metadata)

/-! ### The cleanup manager (`metadata_cleanup_manager.py`)

The cleanup manager reads only the `id` and `file_path` columns of
`file_metadata` and deletes rows by id, so its view of the database is the
projection of the two tables onto those columns. File paths are kept as the
strings the SQL rows store, because `_should_exclude_file` does substring
matching (`pattern in file_path`) on them. -/

/-- Python `lead.isPrefixOf s` on character lists: `charsLead pat s` is true
when `pat` is an initial segment of `s`. -/
def charsLead : List Char → List Char → Bool
  | [], _ => true
  | _ :: _, [] => false
  | a :: as, b :: bs => decide (a = b) && charsLead as bs

/-- Occurrence of `pat` as a contiguous segment of `s` (character lists). -/
def charsWithin (pat : List Char) : List Char → Bool
  | [] => charsLead pat []
  | b :: bs => charsLead pat (b :: bs) || charsWithin pat bs

/-- Python's `pat in s` substring test on strings. -/
def strContains (s pat : String) : Bool :=
  charsWithin pat.data s.data

/-- Default values of the `CleanupConfig` dataclass (`__post_init__` fills
`exclude_patterns`). -/
def defaultExcludePatterns : List String :=
  [".tmp", ".lock", ".temp", "~", "metadata_backup_", ".bak"]

/-- The `CleanupConfig` dataclass. -/
structure CleanupConfig where
  enabled : Bool := true
  grace_period : Nat := 300
  batch_size : Nat := 100
  scan_interval : Nat := 3600
  max_orphans_per_run : Nat := 1000
  backup_before_cleanup : Bool := true
  exclude_patterns : List String := defaultExcludePatterns
deriving DecidableEq, Repr

/-- The `(id, file_path)` projection of a `file_metadata` row, which is all
`check_consistency` selects. -/
structure DbFileRow where
  id : Nat
  file_path : String
deriving DecidableEq, Repr

/-- The `(file_id, tag)` projection of a `file_tags` row. -/
structure DbTagRow where
  file_id : Nat
  tag : String
deriving DecidableEq, Repr

/-- One entry of `result["orphan_metadata"]` in `check_consistency`. -/
structure OrphanEntry where
  id : Nat
  file_path : String
  full_path : String
deriving DecidableEq, Repr

/-- The dict returned by `check_consistency`. -/
structure ConsistencyReport where
  files_checked : Nat
  orphan_metadata : List OrphanEntry
  missing_metadata : List String
  errors : List String
deriving DecidableEq, Repr

/-- Return value of `_backup_orphan_metadata`. -/
structure BackupInfo where
  backup_file : String
  backup_count : Nat
deriving DecidableEq, Repr

/-- The keys `cleanup_orphan_metadata` may put into `result.details`; an
absent key is the default value of the field. -/
structure CleanupDetails where
  errors : List String := []
  backup : Option BackupInfo := none
  dry_run : Bool := false
  would_clean : Option Nat := none
  orphan_files : List String := []
  cleanup_error : Option String := none
deriving DecidableEq, Repr

/-- The `CleanupResult` dataclass. -/
structure CleanupResult where
  cleanup_type : String
  files_checked : Nat
  orphans_found : Nat
  orphans_cleaned : Nat
  errors : Nat
  start_time : Nat
  end_time : Nat
  details : CleanupDetails
  duration : Nat
deriving DecidableEq, Repr

/-- One row of the `cleanup_log` table (`_log_cleanup_result`). -/
structure LogRow where
  cleanup_type : String
  files_checked : Nat
  orphans_found : Nat
  orphans_cleaned : Nat
  errors : Nat
  start_time : Nat
  end_time : Nat
  duration : Nat
  details : CleanupDetails
deriving DecidableEq, Repr

/-- The world `MetadataCleanupManager` operates on: the projected database
tables, the `cleanup_log`, the filesystem under `storage_root` (the list of
existing relative file paths, in scan order), the loaded config, the clock,
and the `_running` flag. -/
structure CleanupState where
  files : List DbFileRow
  tags : List DbTagRow
  fs : List String
  storage_root : String
  config : CleanupConfig
  log : List LogRow
  time : Nat
  running : Bool
deriving DecidableEq, Repr

/-- Python `str(self.storage_root / file_path)`. -/
def fullPathOf (st : CleanupState) (file_path : String) : String :=
  st.storage_root ++ "/" ++ file_path

/-- Model of `_should_exclude_file`: some configured pattern occurs in the path. -/
def _should_exclude_file (cfg : CleanupConfig) (file_path : String) : Bool :=
  cfg.exclude_patterns.any (fun pattern => strContains file_path pattern)

/-- The per-row orphan test of `check_consistency`: the path does not exist
under `storage_root` and is not excluded. -/
def orphanRowPred (st : CleanupState) (r : DbFileRow) : Bool :=
  !(st.fs.any (fun q => decide (q = r.file_path))) && !(_should_exclude_file st.config r.file_path)

/-- Python `item.name` of a relative path string: everything after the last `/`. -/
def baseNameStr (q : String) : String :=
  ((q.splitOn "/").getLast?).getD q

/-- The filter of `_scan_filesystem`: real files that are not `.meta`
sidecars, not the database file, and not excluded. -/
def scanKeep (cfg : CleanupConfig) (q : String) : Bool :=
  !((baseNameStr q).endsWith ".meta") && !(decide (baseNameStr q = "metadata.db")) &&
    !(_should_exclude_file cfg q)

/-- Model of `check_consistency()`: each database row is checked against the
filesystem (orphan detection with exclusions), then each scanned file is
checked for a metadata row (`load_metadata` is `none` iff no row has that
path). No step of the pure model can throw, so `errors` is empty. -/
def check_consistency (st : CleanupState) : ConsistencyReport :=
  { files_checked := st.files.length
    orphan_metadata :=
      (st.files.filter (orphanRowPred st)).map
        (fun r => { id := r.id, file_path := r.file_path, full_path := fullPathOf st r.file_path })
    missing_metadata :=
      (st.fs.filter (scanKeep st.config)).filter
        (fun q => !(st.files.any (fun r => decide (r.file_path = q))))
    errors := [] }

/-- Model of `_delete_orphan_metadata`: for each orphan delete its tag rows and its
`file_metadata` row; the counter is incremented once per orphan processed. -/
def _delete_orphan_metadata (st : CleanupState) (orphans : List OrphanEntry) :
    CleanupState × Nat :=
  ({ st with
      tags := st.tags.filter (fun t => !(orphans.any (fun o => decide (o.id = t.file_id)))),
      files := st.files.filter (fun r => !(orphans.any (fun o => decide (o.id = r.id)))) },
   orphans.length)

/-- The name of the backup file `_backup_orphan_metadata` writes under the
storage root (`metadata_backup_<timestamp>.json`, timestamp from the clock). -/
def mkBackupName (t : Nat) : String :=
  "metadata_backup_" ++ toString t ++ ".json"

/-- Model of `_backup_orphan_metadata`: write a JSON backup file into the storage root
and report its name and the number of rows serialized into it. -/
def _backup_orphan_metadata (st : CleanupState) (orphans : List OrphanEntry) :
    CleanupState × BackupInfo :=
  let backup_file := mkBackupName st.time
  ({ st with fs := st.fs ++ [backup_file] },
   { backup_file := backup_file
     backup_count :=
       (orphans.filter (fun o => st.files.any (fun r => decide (r.id = o.id)))).length })

/-- Model of `_log_cleanup_result`: append one `cleanup_log` row. -/
def _log_cleanup_result (st : CleanupState) (result : CleanupResult) : CleanupState :=
  { st with
      log := st.log ++
        [{ cleanup_type := result.cleanup_type, files_checked := result.files_checked,
           orphans_found := result.orphans_found, orphans_cleaned := result.orphans_cleaned,
           errors := result.errors, start_time := result.start_time,
           end_time := result.end_time, duration := result.duration,
           details := result.details }] }

/-- Model of `cleanup_orphan_metadata(dry_run, max_orphans)` on an execution in which
no database or filesystem primitive throws: check consistency, truncate the
orphan list to the cap, optionally back up and delete, and (unless dry-run)
append a `cleanup_log` row. Returns the `CleanupResult` and the new state. -/
def cleanup_orphan_metadata (st : CleanupState) (dry_run : Bool)
    (max_orphans : Option Nat) : CleanupResult × CleanupState :=
  let start_time := st.time
  let cleanup_type := if st.running then "scheduled" else "manual"
  let maxO := max_orphans.getD st.config.max_orphans_per_run
  let rep := check_consistency st
  let orphans_to_clean := rep.orphan_metadata.take maxO
  let details₀ : CleanupDetails := { errors := rep.errors }
  let step :=
    if dry_run = false ∧ orphans_to_clean ≠ [] then
      let afterBackup :=
        if st.config.backup_before_cleanup then
          let b := _backup_orphan_metadata st orphans_to_clean
          (b.1, { details₀ with backup := some b.2 })
        else (st, details₀)
      let d := _delete_orphan_metadata afterBackup.1 orphans_to_clean
      (d.1, d.2, afterBackup.2)
    else if orphans_to_clean ≠ [] then
      (st, 0, { details₀ with dry_run := true, would_clean := some orphans_to_clean.length })
    else (st, 0, details₀)
  let details₁ :=
    { step.2.2 with orphan_files := orphans_to_clean.map (fun o => o.file_path) }
  let result : CleanupResult :=
    { cleanup_type := cleanup_type, files_checked := rep.files_checked,
      orphans_found := rep.orphan_metadata.length, orphans_cleaned := step.2.1,
      errors := rep.errors.length, start_time := start_time, end_time := st.time,
      details := details₁, duration := st.time - start_time }
  if dry_run = false then (result, _log_cleanup_result step.1 result)
  else (result, step.1)

/-- Points of `cleanup_orphan_metadata` at which a database or filesystem
primitive can genuinely throw: the backup write, the delete transaction
(`connect`/`commit`), and the `cleanup_log` insert. `none` means the
primitive succeeds. `check_consistency` has no entry because it catches all
of its own exceptions into its `errors` list. -/
structure Faults where
  backup_exc : Option String := none
  delete_exc : Option String := none
  log_exc : Option String := none
deriving DecidableEq, Repr

/-- Model of `cleanup_orphan_metadata` with the exception behaviour made explicit:
everything from the consistency check through the deletion runs inside
`try/except Exception`, which converts an exception into `errors += 1` and
`details["cleanup_error"]` (skipping the rest of the body, in particular the
`orphan_files` assignment); the final `_log_cleanup_result` call sits outside
the `try`, so its exception propagates to the caller (`Except.error`). -/
def cleanupExc (st : CleanupState) (dry_run : Bool) (max_orphans : Option Nat)
    (f : Faults) : Except String (CleanupResult × CleanupState) :=
  let start_time := st.time
  let cleanup_type := if st.running then "scheduled" else "manual"
  let maxO := max_orphans.getD st.config.max_orphans_per_run
  let rep := check_consistency st
  let orphans_to_clean := rep.orphan_metadata.take maxO
  let details₀ : CleanupDetails := { errors := rep.errors }
  let step :=
    if dry_run = false ∧ orphans_to_clean ≠ [] then
      match (if st.config.backup_before_cleanup then f.backup_exc else none) with
      | some e => (st, 0, { details₀ with cleanup_error := some e }, rep.errors.length + 1)
      | none =>
        let afterBackup :=
          if st.config.backup_before_cleanup then
            let b := _backup_orphan_metadata st orphans_to_clean
            (b.1, { details₀ with backup := some b.2 })
          else (st, details₀)
        match f.delete_exc with
        | some e =>
            (afterBackup.1, 0, { afterBackup.2 with cleanup_error := some e },
             rep.errors.length + 1)
        | none =>
            let d := _delete_orphan_metadata afterBackup.1 orphans_to_clean
            (d.1, d.2,
             { afterBackup.2 with
                orphan_files := orphans_to_clean.map (fun o => o.file_path) },
             rep.errors.length)
    else if orphans_to_clean ≠ [] then
      (st, 0,
       { details₀ with
          dry_run := true
          would_clean := some orphans_to_clean.length
          orphan_files := orphans_to_clean.map (fun o => o.file_path) },
       rep.errors.length)
    else
      (st, 0, { details₀ with orphan_files := orphans_to_clean.map (fun o => o.file_path) },
       rep.errors.length)
  let result : CleanupResult :=
    { cleanup_type := cleanup_type, files_checked := rep.files_checked,
      orphans_found := rep.orphan_metadata.length, orphans_cleaned := step.2.1,
      errors := step.2.2.2, start_time := start_time, end_time := st.time,
      details := step.2.2.1, duration := st.time - start_time }
  if dry_run = false then
    match f.log_exc with
    | some e => .error e
    | none => .ok (result, _log_cleanup_result step.1 result)
  else .ok (result, step.1)

/-- Characterization of when the `try` body of `cleanup_orphan_metadata`
hits an exception (which the `except` clause then absorbs). -/
def bodyFault (st : CleanupState) (dry_run : Bool) (max_orphans : Option Nat)
    (f : Faults) : Option String :=
  let maxO := max_orphans.getD st.config.max_orphans_per_run
  let orphans_to_clean := (check_consistency st).orphan_metadata.take maxO
  if dry_run = false ∧ orphans_to_clean ≠ [] then
    match (if st.config.backup_before_cleanup then f.backup_exc else none) with
    | some e => some e
    | none => f.delete_exc
  else none

/-! ### Concrete instances used by the witness theorems -/

/-- An empty database as created on first startup. -/
def dbEmpty : MetaDB := { files := [], tags := [], dirs := [], next_id := 1 }

def pA : PurePath := ⟨false, ["docs", "a.txt"]⟩

def recA : FileMetadata :=
  { filename := "a.txt", size := 3, upload_time := 1, last_modified := 2,
    is_public := false, content_type := "text/plain", created_by := none,
    tags := ["beta", "alpha"], description := "", notes := "",
    original_url := none, locked := false }

def recB : FileMetadata := { recA with tags := ["alpha", "beta"] }

def dbA : MetaDB :=
  match save_metadata dbEmpty 5 pA recA with
  | .ok d => d
  | .error _ => dbEmpty

def dbB : MetaDB :=
  match save_metadata dbEmpty 5 pA recB with
  | .ok d => d
  | .error _ => dbEmpty

/-- Directory records: `pub` is explicitly public, `pub/sub` has a row with a
NULL `is_public`. -/
def dirsW : List DirRecord :=
  [{ directory_path := ⟨false, ["pub"]⟩, is_public := some true, locked := false,
     description := "", created_by := none, created_at := 0, updated_at := 0 },
   { directory_path := ⟨false, ["pub", "sub"]⟩, is_public := none, locked := false,
     description := "", created_by := none, created_at := 0, updated_at := 0 }]

def dbDirs : MetaDB := { files := [], tags := [], dirs := dirsW, next_id := 1 }

def pCreate : PurePath := ⟨false, ["pub", "sub", "f.bin"]⟩

def createW : MetaDB × FileMetadata :=
  match create_metadata dbDirs 7 pCreate 10 false none none none "" "" false with
  | .ok x => x
  | .error _ => (dbDirs, recA)

/-- A cleanup-manager state with one orphan row (`gone.txt`), one live row
(`keep.txt`), and one orphan row excluded by the `.tmp` pattern. -/
def stW : CleanupState :=
  { files := [⟨1, "gone.txt"⟩, ⟨2, "keep.txt"⟩, ⟨3, "junk.tmp"⟩], tags := [⟨1, "x"⟩],
    fs := ["keep.txt"], storage_root := "storage/files", config := {},
    log := [], time := 42, running := false }

/-- A cleanup-manager state with exactly ten orphan rows. -/
def stW10 : CleanupState :=
  { files := [⟨1, "f1"⟩, ⟨2, "f2"⟩, ⟨3, "f3"⟩, ⟨4, "f4"⟩, ⟨5, "f5"⟩, ⟨6, "f6"⟩,
              ⟨7, "f7"⟩, ⟨8, "f8"⟩, ⟨9, "f9"⟩, ⟨10, "f10"⟩],
    tags := [], fs := [], storage_root := "storage/files", config := {},
    log := [], time := 99, running := false }

/-- A failure of the final `cleanup_log` insert. -/
def faultsLog : Faults := { log_exc := some "sqlite3.OperationalError: disk I/O error" }

/-- A failure of the backup write. -/
def faultsBackup : Faults := { backup_exc := some "OSError: disk full" }

/-! ### Lemmas about `get_directory_permission` -/

theorem parent_eq_self_of_nil {p : PurePath} (h : p.comps = []) : p.parent = p := by
  simp [PurePath.parent, h]

theorem parent_comps_ne_nil {p : PurePath} (h : p.parent ≠ p) : p.comps ≠ [] :=
  fun h0 => h (parent_eq_self_of_nil h0)

theorem parent_length {p : PurePath} (h : p.parent ≠ p) :
    p.comps.length = p.parent.comps.length + 1 := by
  have hcomps : p.comps ≠ [] := parent_comps_ne_nil h
  simp only [PurePath.parent, if_neg hcomps, List.length_dropLast]
  have hpos : 0 < p.comps.length := List.length_pos.mpr hcomps
  omega

theorem gdpFuel_agree (dirs : List DirRecord) :
    ∀ f₁ f₂ p, p.comps.length < f₁ → p.comps.length < f₂ →
      gdpFuel dirs f₁ p = gdpFuel dirs f₂ p := by
  intro f₁
  induction f₁ with
  | zero => intro f₂ p h₁ _; omega
  | succ n ih =>
      intro f₂ p h₁ h₂
      cases f₂ with
      | zero => omega
      | succ m =>
          cases hb : p.isEmptyRel
          · cases hls : lookupSetting dirs p with
            | some b => simp [gdpFuel, hb, hls]
            | none =>
                by_cases hpar : p.parent ≠ p
                · have hl := parent_length hpar
                  simp only [gdpFuel, hb, hls, if_pos hpar, Bool.false_eq_true,
                    if_false]
                  exact ih m p.parent (by omega) (by omega)
                · simp [gdpFuel, hb, hls, hpar]
          · simp [gdpFuel, hb]

theorem gdpFuel_isSome (dirs : List DirRecord) :
    ∀ f p, p.comps.length < f → (gdpFuel dirs f p).isSome = true := by
  intro f
  induction f with
  | zero => intro p h; omega
  | succ n ih =>
      intro p h
      cases hb : p.isEmptyRel
      · cases hls : lookupSetting dirs p with
        | some b => simp [gdpFuel, hb, hls]
        | none =>
            by_cases hpar : p.parent ≠ p
            · have hl := parent_length hpar
              simp only [gdpFuel, hb, hls, if_pos hpar, Bool.false_eq_true, if_false]
              exact ih p.parent (by omega)
            · simp [gdpFuel, hb, hls, hpar]
      · simp [gdpFuel, hb]

/-- The recursive equation of the Python `get_directory_permission`. -/
theorem gdp_step (dirs : List DirRecord) (p : PurePath) :
    get_directory_permission dirs p =
      (if p.isEmptyRel then none
       else
         match lookupSetting dirs p with
         | some b => some b
         | none =>
             if p.parent ≠ p then get_directory_permission dirs p.parent
             else none) := by
  cases hb : p.isEmptyRel
  · cases hls : lookupSetting dirs p with
    | some b => simp [get_directory_permission, gdpFuel, hb, hls]
    | none =>
        by_cases hpar : p.parent ≠ p
        · have hl := parent_length hpar
          unfold get_directory_permission
          conv_lhs => rw [gdpFuel]
          simp only [hb, hls, if_pos hpar, Bool.false_eq_true, if_false]
          rw [show p.comps.length = p.parent.comps.length + 1 from hl]
        · simp [get_directory_permission, gdpFuel, hb, hls, hpar]
  · simp [get_directory_permission, gdpFuel, hb]

theorem visitChainF_agree :
    ∀ f₁ f₂ p, p.comps.length < f₁ → p.comps.length < f₂ →
      visitChainF f₁ p = visitChainF f₂ p := by
  intro f₁
  induction f₁ with
  | zero => intro f₂ p h₁ _; omega
  | succ n ih =>
      intro f₂ p h₁ h₂
      cases f₂ with
      | zero => omega
      | succ m =>
          cases hb : p.isEmptyRel
          · by_cases hpar : p.parent ≠ p
            · have hl := parent_length hpar
              simp only [visitChainF, hb, if_pos hpar, Bool.false_eq_true, if_false]
              rw [ih m p.parent (by omega) (by omega)]
            · simp [visitChainF, hb, hpar]
          · simp [visitChainF, hb]

/-- The recursive equation of the inspection sequence. -/
theorem visitChain_step (p : PurePath) :
    visitChain p =
      (if p.isEmptyRel then []
       else p :: (if p.parent ≠ p then visitChain p.parent else [])) := by
  cases hb : p.isEmptyRel
  · by_cases hpar : p.parent ≠ p
    · have hl := parent_length hpar
      unfold visitChain
      conv_lhs => rw [visitChainF]
      simp only [hb, if_pos hpar, Bool.false_eq_true, if_false]
      rw [show p.comps.length = p.parent.comps.length + 1 from hl]
    · simp [visitChain, visitChainF, hb, hpar]
  · simp [visitChain, visitChainF, hb]

theorem gdp_eq_chainLookup (dirs : List DirRecord) (p : PurePath) :
    get_directory_permission dirs p = chainLookup dirs (visitChain p) := by
  have main : ∀ (n : Nat) (q : PurePath), q.comps.length ≤ n →
      get_directory_permission dirs q = chainLookup dirs (visitChain q) := by
    intro n
    induction n with
    | zero =>
        intro q hq
        have hq0 : q.comps = [] := List.length_eq_zero.mp (Nat.le_zero.mp hq)
        have hpar : q.parent = q := parent_eq_self_of_nil hq0
        rw [gdp_step, visitChain_step]
        cases hb : q.isEmptyRel
        · cases hls : lookupSetting dirs q with
          | some b => simp [hb, hls, chainLookup]
          | none => simp [hb, hls, hpar, chainLookup]
        · simp [hb, chainLookup]
    | succ n ih =>
        intro q hq
        rw [gdp_step, visitChain_step]
        cases hb : q.isEmptyRel
        · cases hls : lookupSetting dirs q with
          | some b => simp [hb, hls, chainLookup]
          | none =>
              by_cases hpar : q.parent ≠ q
              · have hl := parent_length hpar
                have hlen : q.parent.comps.length ≤ n := by omega
                simp [hb, hls, hpar, chainLookup, ih q.parent hlen]
              · simp [hb, hls, hpar, chainLookup]
        · simp [hb, chainLookup]
  exact main p.comps.length p (Nat.le_refl _)

theorem chainLookup_eq_none (dirs : List DirRecord) :
    ∀ l, (∀ q ∈ l, lookupSetting dirs q = none) → chainLookup dirs l = none := by
  intro l
  induction l with
  | nil => intro _; rfl
  | cons a l ih =>
      intro h
      have ha := h a (List.mem_cons_self a l)
      simp only [chainLookup, ha]
      exact ih (fun q hq => h q (List.mem_cons_of_mem a hq))

theorem chainLookup_pre_true (dirs : List DirRecord) (a : PurePath)
    (rest : List PurePath) (ha : lookupSetting dirs a = some true) :
    ∀ pre, (∀ q ∈ pre, lookupSetting dirs q = none) →
      chainLookup dirs (pre ++ a :: rest) = some true := by
  intro pre
  induction pre with
  | nil => intro _; simp [chainLookup, ha]
  | cons x pre ih =>
      intro h
      have hx := h x (List.mem_cons_self x pre)
      simp only [List.cons_append, chainLookup, hx]
      exact ih (fun q hq => h q (List.mem_cons_of_mem x hq))

/-! ### Lemmas about `save_metadata` and `load_metadata` -/

theorem updateRow_file_path (md : FileMetadata) (now i : Nat) (r : FileRow) :
    (updateRow md now i r).file_path = r.file_path := by
  unfold updateRow; split <;> rfl

theorem updateRow_id (md : FileMetadata) (now i : Nat) (r : FileRow) :
    (updateRow md now i r).id = r.id := by
  unfold updateRow; split <;> rfl

theorem find?_map_keepPath (f : FileRow → FileRow)
    (hf : ∀ r, (f r).file_path = r.file_path) (l : List FileRow) (p : PurePath) :
    (l.map f).find? (fun r => decide (r.file_path = p)) =
      (l.find? (fun r => decide (r.file_path = p))).map f := by
  induction l with
  | nil => rfl
  | cons a l ih =>
      by_cases h : a.file_path = p
      · simp [List.find?_cons, hf, h]
      · simp [List.find?_cons, hf, h, ih]

theorem insertTags_ok_shape (i now : Nat) :
    ∀ (ts : List String) (acc res : List TagRow),
      insertTags i now ts acc = .ok res →
      res = acc ++ ts.map (fun t => ⟨i, t, now⟩) := by
  intro ts
  induction ts with
  | nil =>
      intro acc res h
      unfold insertTags at h
      simp only [Except.ok.injEq] at h
      simp [h]
  | cons t ts ih =>
      intro acc res h
      unfold insertTags at h
      split at h
      · exact absurd h (by simp)
      · have h₂ := ih _ _ h
        simp [h₂, List.append_assoc]

theorem filter_tags_of_append (i now : Nat) (base : List TagRow) (ts : List String)
    (hbase : ∀ tr ∈ base, tr.file_id ≠ i) :
    ((base ++ ts.map (fun t => (⟨i, t, now⟩ : TagRow))).filter
        (fun tr => decide (tr.file_id = i))).map (fun tr => tr.tag) = ts := by
  rw [List.filter_append]
  have h₁ : base.filter (fun tr => decide (tr.file_id = i)) = [] := by
    rw [List.filter_eq_nil_iff]
    intro tr htr
    simpa using hbase tr htr
  have h₂ : (ts.map (fun t => (⟨i, t, now⟩ : TagRow))).filter
      (fun tr => decide (tr.file_id = i)) = ts.map (fun t => (⟨i, t, now⟩ : TagRow)) := by
    rw [List.filter_eq_self]
    intro tr htr
    rcases List.mem_map.mp htr with ⟨t, _, rfl⟩
    simp
  rw [h₁, h₂, List.nil_append, List.map_map]
  exact List.map_id ts

/-- Central round-trip lemma: on a well-formed database, a successful
`save_metadata` makes `load_metadata` return the saved record with
`last_modified` restamped to the save time and the tags sorted. -/
theorem load_after_save (db : MetaDB) (now : Nat) (p : PurePath) (r : FileMetadata)
    (db' : MetaDB) (hwf : db.WF) (hs : save_metadata db now p r = .ok db') :
    load_metadata db' p =
      some { r with last_modified := now, tags := List.insertionSort (· ≤ ·) r.tags } := by
  unfold save_metadata at hs
  cases hfind : db.files.find? (fun row => decide (row.file_path = p)) with
  | some row =>
      rw [hfind] at hs
      simp only at hs
      cases hins : insertTags row.id now ({ r with last_modified := now } : FileMetadata).tags
          (db.tags.filter (fun tr => !decide (tr.file_id = row.id))) with
      | error e => rw [hins] at hs; exact absurd hs (by simp)
      | ok tags₁ =>
          rw [hins] at hs
          simp only [Except.ok.injEq] at hs
          subst hs
          have hshape := insertTags_ok_shape _ _ _ _ _ hins
          unfold load_metadata
          simp only
          rw [find?_map_keepPath _ (updateRow_file_path _ _ _), hfind]
          simp only [Option.map_some']
          have hid : (updateRow { r with last_modified := now } now row.id row).id = row.id :=
            updateRow_id _ _ _ _
          rw [hid, hshape]
          have htags := filter_tags_of_append row.id now
            (db.tags.filter (fun tr => !decide (tr.file_id = row.id)))
            ({ r with last_modified := now } : FileMetadata).tags
            (by
              intro tr htr
              have := List.of_mem_filter htr
              simpa using this)
          rw [htags]
          unfold updateRow
          simp
  | none =>
      rw [hfind] at hs
      simp only at hs
      cases hins : insertTags db.next_id now ({ r with last_modified := now } : FileMetadata).tags
          db.tags with
      | error e => rw [hins] at hs; exact absurd hs (by simp)
      | ok tags₁ =>
          rw [hins] at hs
          simp only [Except.ok.injEq] at hs
          subst hs
          have hshape := insertTags_ok_shape _ _ _ _ _ hins
          unfold load_metadata
          rw [hshape]
          simp only [List.find?_append, hfind, Option.none_or, List.find?_cons]
          have hnil : List.filter (fun tr => decide (tr.file_id = db.next_id)) db.tags = [] := by
            rw [List.filter_eq_nil_iff]
            intro tr htr
            simpa using Nat.ne_of_lt (hwf.2 tr htr)
          have hall : List.filter (fun tr => decide (tr.file_id = db.next_id))
              (List.map (fun t => (⟨db.next_id, t, now⟩ : TagRow)) r.tags) =
              List.map (fun t => (⟨db.next_id, t, now⟩ : TagRow)) r.tags := by
            rw [List.filter_eq_self]
            intro tr htr
            rcases List.mem_map.mp htr with ⟨t, _, rfl⟩
            simp
          simp [hnil, hall, List.map_map, Function.comp]
          have hcomp : ((fun tr => tr.tag) ∘ fun t => (⟨db.next_id, t, now⟩ : TagRow)) =
              (id : String → String) := rfl
          rw [hcomp, List.map_id]

/-! ### Claim theorems about the metadata manager -/

/-- C1: for every record `r` and path `p`, a completed `save_metadata(p, r)`
followed by `load_metadata(p)` yields a record whose tag set equals `r.tags`
exactly (tags are fully replaced on every save), and whose `last_modified` is
at least the value passed in (save restamps it with the current time). -/
theorem save_load_tag_set_and_last_modified
    (db : MetaDB) (now : Nat) (p : PurePath) (r : FileMetadata)
    (hwf : db.WF) (hmono : r.last_modified ≤ now) (db' : MetaDB)
    (hs : save_metadata db now p r = .ok db') :
    ∃ m, load_metadata db' p = some m ∧
      (∀ t, t ∈ m.tags ↔ t ∈ r.tags) ∧ r.last_modified ≤ m.last_modified := by
  have hl := load_after_save db now p r db' hwf hs
  refine ⟨_, hl, ?_, ?_⟩
  · intro t
    simp only
    exact (List.perm_insertionSort _ _).mem_iff
  · simpa using hmono

theorem save_load_tag_set_witness :
    MetaDB.WF dbEmpty ∧ recA.last_modified ≤ 5 ∧
    (∃ m, load_metadata dbA pA = some m ∧
      (∀ t, t ∈ m.tags ↔ t ∈ recA.tags) ∧ recA.last_modified ≤ m.last_modified) :=
  ⟨by decide, by decide,
   save_load_tag_set_and_last_modified dbEmpty 5 pA recA (by decide) (by decide) dbA rfl⟩

/-- C10: the tag list returned by `load_metadata` after a save is sorted in
ascending lexicographic order, and is determined by the tag set alone: saving
two records whose (distinct) tags are permutations of each other loads the
same tag list. -/
theorem load_metadata_tags_sorted_deterministic
    (db : MetaDB) (now : Nat) (p : PurePath) (r₁ r₂ : FileMetadata)
    (db₁ db₂ : MetaDB) (hwf : db.WF) (hnd : r₁.tags.Nodup)
    (hperm : List.Perm r₁.tags r₂.tags)
    (h₁ : save_metadata db now p r₁ = .ok db₁)
    (h₂ : save_metadata db now p r₂ = .ok db₂) :
    ∃ m₁ m₂, load_metadata db₁ p = some m₁ ∧ load_metadata db₂ p = some m₂ ∧
      m₁.tags = m₂.tags ∧ List.Sorted (· ≤ ·) m₁.tags := by
  have l₁ := load_after_save db now p r₁ db₁ hwf h₁
  have l₂ := load_after_save db now p r₂ db₂ hwf h₂
  refine ⟨_, _, l₁, l₂, ?_, ?_⟩
  · simp only
    exact List.eq_of_perm_of_sorted (r := fun a b => a ≤ b)
      ((List.perm_insertionSort _ _).trans
        (hperm.trans (List.perm_insertionSort _ _).symm))
      (List.sorted_insertionSort _ _) (List.sorted_insertionSort _ _)
  · simp only
    exact List.sorted_insertionSort _ _

theorem load_metadata_tags_sorted_witness :
    MetaDB.WF dbEmpty ∧ recA.tags.Nodup ∧ List.Perm recA.tags recB.tags ∧
    (∃ m₁ m₂, load_metadata dbA pA = some m₁ ∧ load_metadata dbB pA = some m₂ ∧
      m₁.tags = m₂.tags ∧ List.Sorted (· ≤ ·) m₁.tags) :=
  ⟨by decide, by decide, by decide,
   load_metadata_tags_sorted_deterministic dbEmpty 5 pA recA recB dbA dbB
     (by decide) (by decide) (by decide) rfl rfl⟩

/-- C3: `create_metadata(p, size, is_public := d, ...)` stores the record with
`is_public` equal to the nearest ancestor directory's non-null `is_public`
setting when the parent chain has one, and with the caller-supplied `d`
otherwise — both cases summarized by the first non-null setting along the
visit chain of `dirname(p)`, defaulting to `d`. -/
theorem create_metadata_inherits_directory_permission
    (db : MetaDB) (now : Nat) (p : PurePath) (size : Nat) (d : Bool)
    (ctype : Option String) (creator : Option String) (tgs : Option (List String))
    (desc nts : String) (lk : Bool) (db' : MetaDB) (m : FileMetadata)
    (hwf : db.WF)
    (hc : create_metadata db now p size d ctype creator tgs desc nts lk = .ok (db', m)) :
    ∃ m', load_metadata db' p = some m' ∧
      m'.is_public = (chainLookup db.dirs (visitChain p.parent)).getD d := by
  simp only [create_metadata] at hc
  revert hc
  cases hsv : save_metadata db now p
      (createRecord db now p size d ctype creator tgs desc nts lk) with
  | error e => intro hc; exact absurd hc (by simp)
  | ok db₁ =>
      intro hc
      simp only [Except.ok.injEq, Prod.mk.injEq] at hc
      obtain ⟨h1, _⟩ := hc
      subst h1
      have hload := load_after_save db now p
        (createRecord db now p size d ctype creator tgs desc nts lk) db₁ hwf hsv
      refine ⟨_, hload, ?_⟩
      show (createRecord db now p size d ctype creator tgs desc nts lk).is_public =
        (chainLookup db.dirs (visitChain p.parent)).getD d
      unfold createRecord
      simp only
      rw [gdp_eq_chainLookup]

theorem create_metadata_inherits_witness :
    MetaDB.WF dbDirs ∧
    (∃ m', load_metadata createW.1 pCreate = some m' ∧
      m'.is_public = (chainLookup dbDirs.dirs (visitChain pCreate.parent)).getD false) :=
  ⟨by decide,
   create_metadata_inherits_directory_permission dbDirs 7 pCreate 10 false none none
     none "" "" false createW.1 createW.2 (by decide) rfl⟩

/-- C4: `get_directory_permission(p)` returns `none` when neither `p` nor any
ancestor on its visit chain has a non-null setting, and returns `true` when
some chain entry `a` has `is_public = true` and every chain entry before `a`
(including `p` itself) has no non-null setting. -/
theorem get_directory_permission_nearest_ancestor
    (dirs : List DirRecord) (p : PurePath) :
    ((∀ q ∈ visitChain p, lookupSetting dirs q = none) →
        get_directory_permission dirs p = none) ∧
    (∀ pre a rest, visitChain p = pre ++ a :: rest →
        (∀ q ∈ pre, lookupSetting dirs q = none) →
        lookupSetting dirs a = some true →
        get_directory_permission dirs p = some true) := by
  constructor
  · intro h
    rw [gdp_eq_chainLookup]
    exact chainLookup_eq_none dirs _ h
  · intro pre a rest hchain hpre ha
    rw [gdp_eq_chainLookup, hchain]
    exact chainLookup_pre_true dirs a rest ha pre hpre

theorem get_directory_permission_nearest_ancestor_witness :
    get_directory_permission dirsW ⟨false, ["pub", "sub", "deep"]⟩ = some true :=
  (get_directory_permission_nearest_ancestor dirsW ⟨false, ["pub", "sub", "deep"]⟩).2
    [⟨false, ["pub", "sub", "deep"]⟩, ⟨false, ["pub", "sub"]⟩] ⟨false, ["pub"]⟩ []
    (by decide) (by decide) (by decide)

/-- C5: the recursion of `get_directory_permission` terminates on every path,
including the empty path, `"."`, and the self-referential filesystem root:
fuel exceeding the component count is always enough for the fuel-indexed
transcription to reach the same answer as the total function. -/
theorem get_directory_permission_terminates
    (dirs : List DirRecord) (p : PurePath) (fuel : Nat)
    (hfuel : p.comps.length < fuel) :
    gdpFuel dirs fuel p = some (get_directory_permission dirs p) := by
  rw [gdpFuel_agree dirs fuel (p.comps.length + 1) p hfuel (Nat.lt_succ_self _)]
  have hsome := gdpFuel_isSome dirs (p.comps.length + 1) p (Nat.lt_succ_self _)
  obtain ⟨r, hr⟩ := Option.isSome_iff_exists.mp hsome
  unfold get_directory_permission
  rw [hr]
  rfl

theorem get_directory_permission_terminates_witness :
    gdpFuel dirsW 3 ⟨true, ["x", "y"]⟩ =
      some (get_directory_permission dirsW ⟨true, ["x", "y"]⟩) :=
  get_directory_permission_terminates dirsW ⟨true, ["x", "y"]⟩ 3 (by decide)

/-! ### Lemmas about the cleanup manager -/

theorem charsLead_append (l m : List Char) : charsLead l (l ++ m) = true := by
  induction l with
  | nil => rfl
  | cons a l ih => simp [charsLead, ih]

theorem charsWithin_of_lead {pat s : List Char} (h : charsLead pat s = true) :
    charsWithin pat s = true := by
  cases s with
  | nil => simpa [charsWithin] using h
  | cons b bs => simp [charsWithin, h]

theorem strContains_double (pat a b : String) :
    strContains (pat ++ a ++ b) pat = true := by
  unfold strContains
  apply charsWithin_of_lead
  rw [String.data_append, String.data_append, List.append_assoc]
  exact charsLead_append _ _

/-- A backup file name always matches the `metadata_backup_` pattern. -/
theorem backupName_excluded (cfg : CleanupConfig) (t : Nat)
    (h : "metadata_backup_" ∈ cfg.exclude_patterns) :
    _should_exclude_file cfg (mkBackupName t) = true := by
  unfold _should_exclude_file
  rw [List.any_eq_true]
  exact ⟨"metadata_backup_", h, strContains_double _ _ _⟩

theorem log_result_files (st : CleanupState) (r : CleanupResult) :
    (_log_cleanup_result st r).files = st.files := rfl

theorem log_result_fs (st : CleanupState) (r : CleanupResult) :
    (_log_cleanup_result st r).fs = st.fs := rfl

theorem log_result_config (st : CleanupState) (r : CleanupResult) :
    (_log_cleanup_result st r).config = st.config := rfl

theorem log_result_storage_root (st : CleanupState) (r : CleanupResult) :
    (_log_cleanup_result st r).storage_root = st.storage_root := rfl

/-- Value of `orphans_cleaned` of a non-dry run is the length of the truncated orphan
list (zero when it is empty, which is also its length). -/
theorem cleanup_cleaned_count (st : CleanupState) (maxO : Option Nat) :
    (cleanup_orphan_metadata st false maxO).1.orphans_cleaned =
      ((check_consistency st).orphan_metadata.take
        (maxO.getD st.config.max_orphans_per_run)).length := by
  by_cases h : (check_consistency st).orphan_metadata.take
      (maxO.getD st.config.max_orphans_per_run) = []
  · simp [cleanup_orphan_metadata, h]
  · by_cases hback : st.config.backup_before_cleanup
    · simp [cleanup_orphan_metadata, h, hback, _delete_orphan_metadata]
    · simp [cleanup_orphan_metadata, h, hback, _delete_orphan_metadata]

/-- The `file_metadata` rows surviving a non-dry run are exactly those whose
id is not among the truncated orphan list. -/
theorem cleanup_files_eq (st : CleanupState) (maxO : Option Nat) :
    (cleanup_orphan_metadata st false maxO).2.files =
      st.files.filter (fun r =>
        !(((check_consistency st).orphan_metadata.take
            (maxO.getD st.config.max_orphans_per_run)).any
          (fun o => decide (o.id = r.id)))) := by
  by_cases h : (check_consistency st).orphan_metadata.take
      (maxO.getD st.config.max_orphans_per_run) = []
  · rw [show st.files = st.files.filter (fun r =>
        !(((check_consistency st).orphan_metadata.take
            (maxO.getD st.config.max_orphans_per_run)).any
          (fun o => decide (o.id = r.id)))) from by simp [h]]
    simp [cleanup_orphan_metadata, h, _log_cleanup_result]
  · by_cases hback : st.config.backup_before_cleanup
    · simp [cleanup_orphan_metadata, h, hback, _delete_orphan_metadata,
        _backup_orphan_metadata, _log_cleanup_result]
    · simp [cleanup_orphan_metadata, h, hback, _delete_orphan_metadata,
        _log_cleanup_result]

/-- A non-dry run leaves the filesystem unchanged or adds one backup file. -/
theorem cleanup_fs_eq (st : CleanupState) (maxO : Option Nat) :
    (cleanup_orphan_metadata st false maxO).2.fs = st.fs ∨
    (cleanup_orphan_metadata st false maxO).2.fs = st.fs ++ [mkBackupName st.time] := by
  by_cases h : (check_consistency st).orphan_metadata.take
      (maxO.getD st.config.max_orphans_per_run) = []
  · left; simp [cleanup_orphan_metadata, h, _log_cleanup_result]
  · by_cases hback : st.config.backup_before_cleanup
    · right
      simp [cleanup_orphan_metadata, h, hback, _delete_orphan_metadata,
        _backup_orphan_metadata, _log_cleanup_result]
    · left
      simp [cleanup_orphan_metadata, h, hback, _delete_orphan_metadata,
        _log_cleanup_result]

theorem cleanup_config_eq (st : CleanupState) (dry : Bool) (maxO : Option Nat) :
    (cleanup_orphan_metadata st dry maxO).2.config = st.config := by
  by_cases h : (check_consistency st).orphan_metadata.take
      (maxO.getD st.config.max_orphans_per_run) = [] <;>
    by_cases hback : st.config.backup_before_cleanup <;>
      cases dry <;>
        simp [cleanup_orphan_metadata, h, hback, _delete_orphan_metadata,
          _backup_orphan_metadata, _log_cleanup_result]

theorem cleanup_storage_root_eq (st : CleanupState) (dry : Bool) (maxO : Option Nat) :
    (cleanup_orphan_metadata st dry maxO).2.storage_root = st.storage_root := by
  by_cases h : (check_consistency st).orphan_metadata.take
      (maxO.getD st.config.max_orphans_per_run) = [] <;>
    by_cases hback : st.config.backup_before_cleanup <;>
      cases dry <;>
        simp [cleanup_orphan_metadata, h, hback, _delete_orphan_metadata,
          _backup_orphan_metadata, _log_cleanup_result]

theorem any_append_left {α : Type} (l₁ l₂ : List α) (p : α → Bool)
    (h : l₁.any p = true) : (l₁ ++ l₂).any p = true := by
  rw [List.any_append, h, Bool.true_or]

/-! ### Claim theorems about the cleanup manager -/

/-- C8: a dry run leaves the world completely unchanged — no `file_metadata`
row, `file_tags` row, `cleanup_log` entry or backup file is created or
deleted — and re-running `check_consistency` afterwards returns the identical
report (in particular the identical orphan set). -/
theorem cleanup_dry_run_frame (st : CleanupState) (max_orphans : Option Nat) :
    (cleanup_orphan_metadata st true max_orphans).2 = st ∧
    check_consistency (cleanup_orphan_metadata st true max_orphans).2 =
      check_consistency st := by
  have h2 : (cleanup_orphan_metadata st true max_orphans).2 = st := by
    by_cases h : (check_consistency st).orphan_metadata.take
        (max_orphans.getD st.config.max_orphans_per_run) = []
    · simp [cleanup_orphan_metadata, h]
    · simp [cleanup_orphan_metadata, h]
  exact ⟨h2, by rw [h2]⟩

/-- C6: with `N` orphans (at most the configured per-run cap) and no outside
filesystem change, a non-dry cleanup reports `orphans_cleaned = N`, and an
immediately repeated non-dry cleanup reports `orphans_cleaned = 0`. -/
theorem cleanup_idempotent (st : CleanupState) (N : Nat)
    (hN : (check_consistency st).orphan_metadata.length = N)
    (hle : N ≤ st.config.max_orphans_per_run) :
    (cleanup_orphan_metadata st false none).1.orphans_cleaned = N ∧
    (cleanup_orphan_metadata
      (cleanup_orphan_metadata st false none).2 false none).1.orphans_cleaned = 0 := by
  have htake : (check_consistency st).orphan_metadata.take
      ((none : Option Nat).getD st.config.max_orphans_per_run) =
      (check_consistency st).orphan_metadata := by
    apply List.take_of_length_le
    simpa [hN] using hle
  constructor
  · rw [cleanup_cleaned_count, htake, hN]
  · rw [cleanup_cleaned_count]
    have hfe : (cleanup_orphan_metadata st false none).2.files =
        st.files.filter (fun r =>
          !((check_consistency st).orphan_metadata.any (fun o => decide (o.id = r.id)))) := by
      rw [cleanup_files_eq, htake]
    have hcfg : (cleanup_orphan_metadata st false none).2.config = st.config :=
      cleanup_config_eq st false none
    have hnil : (cleanup_orphan_metadata st false none).2.files.filter
        (orphanRowPred (cleanup_orphan_metadata st false none).2) = [] := by
      rw [List.filter_eq_nil_iff]
      intro r hr
      rw [hfe] at hr
      obtain ⟨hrin, hnotdel⟩ := List.mem_filter.mp hr
      have key : orphanRowPred st r = false := by
        cases hPP : orphanRowPred st r
        · rfl
        · exfalso
          have hin : (⟨r.id, r.file_path, fullPathOf st r.file_path⟩ : OrphanEntry) ∈
              (check_consistency st).orphan_metadata :=
            List.mem_map_of_mem _ (List.mem_filter.mpr ⟨hrin, hPP⟩)
          have hany : (check_consistency st).orphan_metadata.any
              (fun o => decide (o.id = r.id)) = true :=
            List.any_eq_true.mpr ⟨_, hin, by simp⟩
          simp [hany] at hnotdel
      intro hP1
      unfold orphanRowPred at hP1 key
      rw [hcfg] at hP1
      rw [Bool.and_eq_true] at hP1
      have hfs1 : (cleanup_orphan_metadata st false none).2.fs.any
          (fun q => decide (q = r.file_path)) = false := by
        simpa using hP1.1
      have hex : _should_exclude_file st.config r.file_path = false := by
        simpa using hP1.2
      rw [hex] at key
      simp only [Bool.not_false, Bool.and_true] at key
      have hfs0 : st.fs.any (fun q => decide (q = r.file_path)) = true := by
        cases hA : st.fs.any (fun q => decide (q = r.file_path))
        · rw [hA] at key; simp at key
        · rfl
      rcases cleanup_fs_eq st none with hfs | hfs
      · rw [hfs, hfs0] at hfs1; exact absurd hfs1 (by simp)
      · rw [hfs, any_append_left _ _ _ hfs0] at hfs1
        exact absurd hfs1 (by simp)
    have horph : (check_consistency (cleanup_orphan_metadata st false none).2).orphan_metadata
        = [] := by
      unfold check_consistency
      rw [hnil]
      rfl
    rw [horph]
    simp

theorem cleanup_idempotent_witness :
    (check_consistency stW).orphan_metadata.length = 1 ∧
    1 ≤ stW.config.max_orphans_per_run ∧
    ((cleanup_orphan_metadata stW false none).1.orphans_cleaned = 1 ∧
     (cleanup_orphan_metadata
       (cleanup_orphan_metadata stW false none).2 false none).1.orphans_cleaned = 0) :=
  ⟨by decide, by decide, cleanup_idempotent stW 1 (by decide) (by decide)⟩

/-- C9: a database row whose path is missing from disk but matches a
configured exclude pattern (substring match) is never reported in
`orphan_metadata` by `check_consistency`. -/
theorem check_consistency_excluded_never_orphan
    (st : CleanupState) (row : DbFileRow) (pat : String)
    (hrow : row ∈ st.files) (hpat : pat ∈ st.config.exclude_patterns)
    (hsub : strContains row.file_path pat = true)
    (habs : st.fs.any (fun q => decide (q = row.file_path)) = false) :
    ∀ e ∈ (check_consistency st).orphan_metadata, e.file_path ≠ row.file_path := by
  intro e he
  unfold check_consistency at he
  simp only [List.mem_map] at he
  obtain ⟨r, hr, rfl⟩ := he
  obtain ⟨hrin, hpred⟩ := List.mem_filter.mp hr
  intro heq
  simp only at heq
  unfold orphanRowPred at hpred
  rw [Bool.and_eq_true] at hpred
  have hex : _should_exclude_file st.config r.file_path = false := by
    simpa using hpred.2
  have hex' : _should_exclude_file st.config r.file_path = true := by
    rw [heq]
    unfold _should_exclude_file
    rw [List.any_eq_true]
    exact ⟨pat, hpat, hsub⟩
  rw [hex'] at hex
  exact absurd hex (by simp)

theorem check_consistency_excluded_witness :
    (⟨3, "junk.tmp"⟩ : DbFileRow) ∈ stW.files ∧
    ".tmp" ∈ stW.config.exclude_patterns ∧
    strContains "junk.tmp" ".tmp" = true ∧
    (∀ e ∈ (check_consistency stW).orphan_metadata,
      e.file_path ≠ (⟨3, "junk.tmp"⟩ : DbFileRow).file_path) :=
  ⟨by decide, by decide, by decide,
   check_consistency_excluded_never_orphan stW ⟨3, "junk.tmp"⟩ ".tmp"
     (by decide) (by decide) (by decide) (by decide)⟩

theorem any_map_entry (l : List DbFileRow) (f : DbFileRow → OrphanEntry)
    (p : OrphanEntry → Bool) : (l.map f).any p = l.any (fun x => p (f x)) := by
  induction l with
  | nil => rfl
  | cons a l ih => simp [List.any_cons, ih]

theorem filter_not_id_mem_front (l₁ l₂ : List DbFileRow)
    (h : ((l₁ ++ l₂).map (fun r => r.id)).Nodup) :
    (l₁ ++ l₂).filter (fun r => !(l₁.any (fun o => decide (o.id = r.id)))) = l₂ := by
  have hdisj : List.Disjoint (l₁.map (fun r => r.id)) (l₂.map (fun r => r.id)) := by
    rw [List.map_append, List.nodup_append] at h
    exact h.2.2
  rw [List.filter_append]
  have h₁ : l₁.filter (fun r => !(l₁.any (fun o => decide (o.id = r.id)))) = [] := by
    rw [List.filter_eq_nil_iff]
    intro x hx
    have hany : l₁.any (fun o => decide (o.id = x.id)) = true :=
      List.any_eq_true.mpr ⟨x, hx, by simp⟩
    simp [hany]
  have h₂ : l₂.filter (fun r => !(l₁.any (fun o => decide (o.id = r.id)))) = l₂ := by
    rw [List.filter_eq_self]
    intro x hx
    have hfx : x.id ∈ l₂.map (fun r => r.id) := List.mem_map_of_mem _ hx
    have hnm : x.id ∉ l₁.map (fun r => r.id) := fun hm => hdisj hm hfx
    have hany : l₁.any (fun o => decide (o.id = x.id)) = false := by
      cases hA : l₁.any (fun o => decide (o.id = x.id))
      · rfl
      · exfalso
        obtain ⟨y, hy, hyx⟩ := List.any_eq_true.mp hA
        have hid : y.id = x.id := of_decide_eq_true hyx
        exact hnm (hid ▸ List.mem_map_of_mem _ hy)
    simp [hany]
  rw [h₁, h₂, List.nil_append]

/-- C7: with exactly ten orphans and `max_orphans = 3`, a non-dry cleanup
deletes exactly the first three orphans of the enumeration order, reports
`orphans_cleaned = 3`, and the next consistency check reports exactly the
remaining seven (the drop of the original orphan list). -/
theorem cleanup_max_orphans_cap (st : CleanupState)
    (hnd : (st.files.map (fun r => r.id)).Nodup)
    (hpat : "metadata_backup_" ∈ st.config.exclude_patterns)
    (h10 : (check_consistency st).orphan_metadata.length = 10) :
    (cleanup_orphan_metadata st false (some 3)).1.orphans_cleaned = 3 ∧
    (∀ e ∈ (check_consistency st).orphan_metadata.take 3,
      ∀ r ∈ (cleanup_orphan_metadata st false (some 3)).2.files, r.id ≠ e.id) ∧
    (check_consistency (cleanup_orphan_metadata st false (some 3)).2).orphan_metadata =
      (check_consistency st).orphan_metadata.drop 3 ∧
    ((check_consistency
        (cleanup_orphan_metadata st false (some 3)).2).orphan_metadata).length = 7 := by
  have hgetd : (some 3 : Option Nat).getD st.config.max_orphans_per_run = 3 := rfl
  have hfe := cleanup_files_eq st (some 3)
  rw [hgetd] at hfe
  have hcfg := cleanup_config_eq st false (some 3)
  have hsr := cleanup_storage_root_eq st false (some 3)
  have hpred : orphanRowPred (cleanup_orphan_metadata st false (some 3)).2 =
      orphanRowPred st := by
    funext r
    unfold orphanRowPred
    rw [hcfg]
    by_cases hex : _should_exclude_file st.config r.file_path
    · rw [hex]; simp
    · rcases cleanup_fs_eq st (some 3) with hfs | hfs
      · rw [hfs]
      · rw [hfs, List.any_append]
        have hb : decide (mkBackupName st.time = r.file_path) = false := by
          rw [decide_eq_false_iff_not]
          intro hbeq
          exact hex (by rw [← hbeq]; exact backupName_excluded st.config st.time hpat)
        simp [hb]
  have hc1 : (cleanup_orphan_metadata st false (some 3)).1.orphans_cleaned = 3 := by
    rw [cleanup_cleaned_count, hgetd, List.length_take, h10]
    exact min_eq_left (by omega)
  have hck : ∀ s : CleanupState, (check_consistency s).orphan_metadata =
      (s.files.filter (orphanRowPred s)).map
        (fun r => (⟨r.id, r.file_path, fullPathOf s r.file_path⟩ : OrphanEntry)) :=
    fun s => rfl
  have hmain : (check_consistency
      (cleanup_orphan_metadata st false (some 3)).2).orphan_metadata =
      (check_consistency st).orphan_metadata.drop 3 := by
    have hfp : (fun r : DbFileRow => (⟨r.id, r.file_path,
        fullPathOf (cleanup_orphan_metadata st false (some 3)).2 r.file_path⟩ :
          OrphanEntry)) =
        (fun r : DbFileRow =>
          (⟨r.id, r.file_path, fullPathOf st r.file_path⟩ : OrphanEntry)) := by
      funext r
      unfold fullPathOf
      rw [hsr]
    rw [hck, hck st, hpred, hfe, hfp, List.filter_filter]
    have hcomm : st.files.filter (fun a => orphanRowPred st a &&
        !(((check_consistency st).orphan_metadata.take 3).any
          (fun o => decide (o.id = a.id)))) =
        (st.files.filter (orphanRowPred st)).filter (fun a =>
          !(((check_consistency st).orphan_metadata.take 3).any
            (fun o => decide (o.id = a.id)))) := by
      rw [List.filter_filter]
      apply List.filter_congr
      intro a _
      rw [Bool.and_comm]
    rw [hcomm]
    have hanyR : ∀ a : DbFileRow,
        (((check_consistency st).orphan_metadata.take 3).any
          (fun o => decide (o.id = a.id))) =
        (((st.files.filter (orphanRowPred st)).take 3).any
          (fun x => decide (x.id = a.id))) := by
      intro a
      rw [hck st, ← List.map_take, any_map_entry]
    have hfilterR : (st.files.filter (orphanRowPred st)).filter (fun a =>
        !(((check_consistency st).orphan_metadata.take 3).any
          (fun o => decide (o.id = a.id)))) =
        (st.files.filter (orphanRowPred st)).filter (fun a =>
          !(((st.files.filter (orphanRowPred st)).take 3).any
            (fun x => decide (x.id = a.id)))) := by
      apply List.filter_congr
      intro a _
      rw [hanyR]
    rw [hfilterR]
    have hndR : ((st.files.filter (orphanRowPred st)).map (fun r => r.id)).Nodup :=
      List.Nodup.sublist (List.Sublist.map _ (List.filter_sublist _)) hnd
    have hsplit := filter_not_id_mem_front
        ((st.files.filter (orphanRowPred st)).take 3)
        ((st.files.filter (orphanRowPred st)).drop 3)
        (by rw [List.take_append_drop]; exact hndR)
    rw [List.take_append_drop] at hsplit
    rw [hsplit, List.map_drop]
  refine ⟨hc1, ?_, hmain, by rw [hmain, List.length_drop, h10]⟩
  intro e he r hr
  rw [hfe] at hr
  obtain ⟨hrin, hkeep⟩ := List.mem_filter.mp hr
  intro hid
  have hany : ((check_consistency st).orphan_metadata.take 3).any
      (fun o => decide (o.id = r.id)) = true :=
    List.any_eq_true.mpr ⟨e, he, by simp [hid]⟩
  simp [hany] at hkeep

theorem cleanup_max_orphans_cap_witness :
    (stW10.files.map (fun r => r.id)).Nodup ∧
    "metadata_backup_" ∈ stW10.config.exclude_patterns ∧
    (check_consistency stW10).orphan_metadata.length = 10 ∧
    ((cleanup_orphan_metadata stW10 false (some 3)).1.orphans_cleaned = 3 ∧
     (∀ e ∈ (check_consistency stW10).orphan_metadata.take 3,
       ∀ r ∈ (cleanup_orphan_metadata stW10 false (some 3)).2.files, r.id ≠ e.id) ∧
     (check_consistency (cleanup_orphan_metadata stW10 false (some 3)).2).orphan_metadata =
       (check_consistency stW10).orphan_metadata.drop 3 ∧
     ((check_consistency
         (cleanup_orphan_metadata stW10 false (some 3)).2).orphan_metadata).length = 7) :=
  ⟨by decide, by decide, by decide,
   cleanup_max_orphans_cap stW10 (by decide) (by decide) (by decide)⟩

/-- Running the exception-explicit cleanup with no faults injected is exactly
the pure cleanup: the two transcriptions agree. -/
theorem cleanupExc_noFaults (st : CleanupState) (dry_run : Bool)
    (max_orphans : Option Nat) :
    cleanupExc st dry_run max_orphans {} =
      .ok (cleanup_orphan_metadata st dry_run max_orphans) := by
  by_cases hne : (check_consistency st).orphan_metadata.take
      (max_orphans.getD st.config.max_orphans_per_run) = [] <;>
    by_cases hback : st.config.backup_before_cleanup <;>
      cases dry_run <;>
        simp [cleanupExc, cleanup_orphan_metadata, hne, hback,
          _backup_orphan_metadata, _delete_orphan_metadata, _log_cleanup_result]

/-- C2 counterexample: `cleanup_orphan_metadata` is not exception-free — when
the final `cleanup_log` insert fails (and `dry_run = False`), the exception
propagates to the caller instead of surfacing in `errors`/`details`. -/
theorem cleanup_raises_counterexample :
    (cleanupExc stW false none faultsLog).isOk = false := by
  decide

/-- C2 (amended): `cleanup_orphan_metadata` raises to its caller exactly when
`dry_run = False` and the final `cleanup_log` insert itself fails; every
failure inside the checked body (backup write, delete transaction) is caught
and surfaces only as `errors = consistency errors + 1` together with the
exception text in `details.cleanup_error`. -/
theorem cleanup_raises_only_on_log_failure (st : CleanupState) (dry_run : Bool)
    (max_orphans : Option Nat) (f : Faults) :
    ((cleanupExc st dry_run max_orphans f).isOk = true ↔
      (dry_run = true ∨ f.log_exc = none)) ∧
    (∀ e, bodyFault st dry_run max_orphans f = some e →
      ∀ r st', cleanupExc st dry_run max_orphans f = .ok (r, st') →
        r.errors = (check_consistency st).errors.length + 1 ∧
        r.details.cleanup_error = some e) := by
  cases dry_run
  · -- dry_run = false
    cases hlog : f.log_exc with
    | some msg =>
        constructor
        · constructor
          · intro hok
            exfalso
            by_cases hne : (check_consistency st).orphan_metadata.take
                (max_orphans.getD st.config.max_orphans_per_run) = [] <;>
              by_cases hback : st.config.backup_before_cleanup <;>
                cases hbe : f.backup_exc <;>
                  cases hde : f.delete_exc <;>
                    simp [cleanupExc, Except.isOk, Except.toBool, hne, hback, hbe, hde, hlog] at hok
          · intro hor
            rcases hor with hd | hn
            · exact absurd hd (by simp)
            · exact absurd hn (by simp)
        · intro e hbf r st' hok
          exfalso
          by_cases hne : (check_consistency st).orphan_metadata.take
              (max_orphans.getD st.config.max_orphans_per_run) = [] <;>
            by_cases hback : st.config.backup_before_cleanup <;>
              cases hbe : f.backup_exc <;>
                cases hde : f.delete_exc <;>
                  simp [cleanupExc, hne, hback, hbe, hde, hlog] at hok
    | none =>
        constructor
        · constructor
          · intro _; right; rfl
          · intro _
            by_cases hne : (check_consistency st).orphan_metadata.take
                (max_orphans.getD st.config.max_orphans_per_run) = [] <;>
              by_cases hback : st.config.backup_before_cleanup <;>
                cases hbe : f.backup_exc <;>
                  cases hde : f.delete_exc <;>
                    simp [cleanupExc, Except.isOk, Except.toBool, hne, hback, hbe, hde, hlog]
        · intro e hbf r st' hok
          by_cases hne : (check_consistency st).orphan_metadata.take
              (max_orphans.getD st.config.max_orphans_per_run) = []
          · exfalso
            simp [bodyFault, hne] at hbf
          · by_cases hback : st.config.backup_before_cleanup
            · cases hbe : f.backup_exc with
              | some msg =>
                  have hme : e = msg := by
                    simp [bodyFault, hne, hback, hbe] at hbf
                    exact hbf.symm
                  subst hme
                  simp [cleanupExc, hne, hback, hbe, hlog] at hok
                  rw [← hok.1]
                  constructor <;> rfl
              | none =>
                  cases hde : f.delete_exc with
                  | some msg =>
                      have hme : e = msg := by
                        simp [bodyFault, hne, hback, hbe, hde] at hbf
                        exact hbf.symm
                      subst hme
                      simp [cleanupExc, hne, hback, hbe, hde, hlog] at hok
                      rw [← hok.1]
                      constructor <;> rfl
                  | none =>
                      exfalso
                      simp [bodyFault, hne, hback, hbe, hde] at hbf
            · cases hde : f.delete_exc with
              | some msg =>
                  have hme : e = msg := by
                    simp [bodyFault, hne, hback, hde] at hbf
                    exact hbf.symm
                  subst hme
                  simp [cleanupExc, hne, hback, hde, hlog] at hok
                  rw [← hok.1]
                  constructor <;> rfl
              | none =>
                  exfalso
                  simp [bodyFault, hne, hback, hde] at hbf
  · -- dry_run = true
    constructor
    · constructor
      · intro _; left; rfl
      · intro _
        by_cases hne : (check_consistency st).orphan_metadata.take
            (max_orphans.getD st.config.max_orphans_per_run) = [] <;>
          simp [cleanupExc, Except.isOk, Except.toBool, hne]
    · intro e hbf
      exfalso
      simp [bodyFault] at hbf

theorem cleanup_raises_only_on_log_failure_witness :
    (cleanupExc stW true none faultsLog).isOk = true :=
  (cleanup_raises_only_on_log_failure stW true none faultsLog).1.mpr (Or.inl rfl)
